import Mathlib

/-!
Shallow embedding of the mavlink-inspector aggregation engine and tree view
(`src/base/mavlink_bus.py` and `src/base/interactive_tree.py`).

Python dictionaries are modelled as insertion-ordered association lists,
timestamps as exact rationals, and the mutable object graph as explicit state
passing.  Each definition is annotated with the source location it embeds.
-/

namespace MavInspector

/-- First-match association-list lookup, modelling a Python dictionary read
(`d[k]`, `d.get(k)`, `k in d`).  Python dictionary keys are unique, so
first-match lookup agrees with dict semantics on every state the program
builds. -/
def alookup {α β : Type} [DecidableEq α] (k : α) : List (α × β) → Option β
  | [] => Option.none
  | (k', v) :: rest => if k' = k then some v else alookup k rest

/-- Python dictionary write `d[k] = v`: replace the value at an existing key in
place (keeping insertion order), otherwise append the new binding. -/
def dictSet {α β : Type} [DecidableEq α] : List (α × β) → α → β → List (α × β)
  | [], k, v => [(k, v)]
  | (k', v') :: rest, k, v => if k' = k then (k', v) :: rest else (k', v') :: dictSet rest k v

/-- Scalar Python values that flow through the program: message field values,
parameter ids and values, STATUSTEXT fields.  `PyVal.none` models Python
`None` (for example the result of `dict.get` on a missing key). -/
inductive PyVal : Type where
  | str (s : String)
  | int (n : ℤ)
  | float (q : ℚ)
  | none
deriving DecidableEq

/-- Zero-padded three-digit formatting, Python `f"{n:03}"`
(interactive_tree.py line 153). -/
def natPad3 (n : ℕ) : String :=
  let s := toString n
  String.mk (List.replicate (3 - s.length) '0') ++ s

/-- Fixed-precision decimal formatting of a rational, modelling the Python
format specifier `f"{x:.Nf}"` applied to a float.  Rounds to `prec` decimal
digits; Python resolves exact ties of the final digit half-to-even while
`round` rounds half away from zero, a difference that is immaterial to every
property proved here. -/
def formatFixed (prec : ℕ) (q : ℚ) : String :=
  let scaled : ℤ := round (q * (10 : ℚ) ^ prec)
  let sign := if scaled < 0 then "-" else ""
  let m := scaled.natAbs
  let whole := m / 10 ^ prec
  let fracDigits := toString (m % 10 ^ prec)
  let fracPadded := String.mk (List.replicate (prec - fracDigits.length) '0') ++ fracDigits
  if prec = 0 then sign ++ toString whole
  else sign ++ toString whole ++ "." ++ fracPadded

/-- Python `str(...)` on the scalar values the program renders.  The float case
is a stand-in rendering: every code path in the source formats floats through
an explicit `isinstance(..., float)` fixed-precision branch before `str` could
be reached, so the float case is never exercised by the modelled code. -/
def pyStr : PyVal → String
  | PyVal.str s => s
  | PyVal.int n => toString n
  | PyVal.float q => formatFixed 4 q
  | PyVal.none => "None"

/-- interactive_tree.py value formatting (lines 127-130 and 171-175): floats
with four decimal places, everything else via `str`. -/
def displayValue : PyVal → String
  | PyVal.float q => formatFixed 4 q
  | v => pyStr v

/-- Python `str.strip(chars)`: remove leading and trailing characters drawn
from `cs` (interactive_tree.py line 120). -/
def stripChars (s : String) (cs : List Char) : String :=
  String.mk (((s.toList.dropWhile (fun c => c ∈ cs)).reverse.dropWhile (fun c => c ∈ cs)).reverse)

/-- One entry of `Component.message_stats` (mavlink_bus.py lines 59-65):
`{"count", "last_time", "first_time", "frequency", "recent_timestamps"}`. -/
structure StatEntry where
  count : ℕ
  last_time : ℚ
  first_time : ℚ
  frequency : ℚ
  recent_timestamps : List ℚ
deriving DecidableEq

/-- Embeds `MAVBus._recalculate_frequency` (mavlink_bus.py lines 77-93).  The window
filter keeps exactly the timestamps with `window_start < ts`, i.e. it drops
every timestamp aged 2.0 seconds or more, boundary included. -/
def recalculateFrequency (statEntry : StatEntry) (currentTime : ℚ) : StatEntry :=
  let windowStart := currentTime - 2
  let recent := statEntry.recent_timestamps.filter (fun ts => decide (windowStart < ts))
  let recentCount := recent.length
  if 1 < recentCount then
    let timeSpan := currentTime - recent.headI
    if 0 < timeSpan then
      { statEntry with recent_timestamps := recent,
                       frequency := ((recentCount : ℚ) - 1) / timeSpan }
    else
      { statEntry with recent_timestamps := recent, frequency := 0 }
  else
    { statEntry with recent_timestamps := recent, frequency := 0 }

/-- Embeds `MAVBus._update_message_stats` restricted to the per-type stats dictionary
(mavlink_bus.py lines 52-75): the first message of a type creates its entry,
later ones append the timestamp and recompute the frequency.  `currentTime`
stands for the `time.time()` call. -/
def updateMessageStats (stats : List (String × StatEntry)) (msgType : String) (currentTime : ℚ) :
    List (String × StatEntry) :=
  match alookup msgType stats with
  | Option.none =>
      dictSet stats msgType
        { count := 1, last_time := currentTime, first_time := currentTime,
          frequency := 0, recent_timestamps := [currentTime] }
  | some _ =>
      stats.map (fun p =>
        if p.1 = msgType then
          (p.1, recalculateFrequency
            { p.2 with count := p.2.count + 1, last_time := currentTime,
                       recent_timestamps := p.2.recent_timestamps ++ [currentTime] } currentTime)
        else p)

/-- One stored STATUSTEXT record (mavlink_bus.py lines 128-130):
`{"timestamp": time.time(), "text": ..., "severity": ...}`. -/
structure StatusMsg where
  timestamp : ℚ
  text : PyVal
  severity : PyVal
deriving DecidableEq

/-- A `Component.data` entry: either the message's field dictionary
(`msg.to_dict()`) or, in verbose (`details`) mode, a single string dump. -/
inductive MsgData : Type where
  | dict (fields : List (String × PyVal))
  | val (v : PyVal)
deriving DecidableEq

/-- The per-endpoint aggregate `Component` (mavlink_bus.py lines 11-22). -/
structure Component where
  system_id : Option ℤ := Option.none
  component_id : Option ℤ := Option.none
  data : List (String × MsgData) := []
  parameters : List (PyVal × PyVal) := []
  status_messages : List StatusMsg := []
  message_stats : List (String × StatEntry) := []
deriving DecidableEq

/-- An already-decoded incoming message as `parse_msg` sees it: the type
discriminator, source identity, the `to_dict()` field dictionary and the
verbose dump text. -/
structure MavMsg where
  msgType : String
  srcSystem : ℤ
  srcComponent : ℤ
  dict : List (String × PyVal)
  verboseDump : String
deriving DecidableEq

/-- Python `msg.to_dict().get(key)`: a missing key yields `None`. -/
def dictGet (m : MavMsg) (k : String) : PyVal :=
  (alookup k m.dict).getD PyVal.none

/-- Update the component stored under an existing `vehicleId` in place. -/
def updateVehicle (vehicles : List (String × Component)) (vehicleId : String)
    (f : Component → Component) : List (String × Component) :=
  vehicles.map (fun p => if p.1 = vehicleId then (p.1, f p.2) else p)

/-- Embeds `MAVBus.parse_msg` (mavlink_bus.py lines 102-145).  `msg = none` models the
`None` a timed-out poll returns; `currentTime` stands for `time.time()`;
`details` is the constructor flag selecting verbose dumps.  An unseen source
identity first gets a fresh `Component` with its ids, as the `defaultdict`
does. -/
def parseMsg (vehicles : List (String × Component)) (msg : Option MavMsg)
    (currentTime : ℚ) (details : Bool) : List (String × Component) :=
  match msg with
  | Option.none => vehicles
  | some m =>
    if m.msgType = "BAD_DATA" then vehicles
    else
      let vehicleId := toString m.srcSystem ++ ":" ++ toString m.srcComponent
      let vehicles1 :=
        if (alookup vehicleId vehicles).isSome then vehicles
        else vehicles ++ [(vehicleId, { system_id := some m.srcSystem,
                                        component_id := some m.srcComponent })]
      let vehicles2 := updateVehicle vehicles1 vehicleId (fun c =>
        { c with message_stats := updateMessageStats c.message_stats m.msgType currentTime })
      if m.msgType = "STATUSTEXT" then
        updateVehicle vehicles2 vehicleId (fun c =>
          { c with status_messages := (c.status_messages ++
              [{ timestamp := currentTime, text := dictGet m "text",
                 severity := dictGet m "severity" }]) })
      else if m.msgType = "PARAM_VALUE" then
        updateVehicle vehicles2 vehicleId (fun c =>
          { c with parameters := (dictSet c.parameters (dictGet m "param_id")
                                   (dictGet m "param_value")) })
      else
        updateVehicle vehicles2 vehicleId (fun c =>
          { c with data := (dictSet c.data m.msgType
              (if details then MsgData.val (PyVal.str m.verboseDump) else MsgData.dict m.dict)) })

/-- Embeds `MAVBus._cleanup_and_update_stats` applied to one component. -/
def cleanupComponentStats (c : Component) (currentTime : ℚ) : Component :=
  { c with message_stats :=
      c.message_stats.map (fun p => (p.1, recalculateFrequency p.2 currentTime)) }

/-- Embeds `MAVBus._cleanup_and_update_stats` (mavlink_bus.py lines 95-100): the
periodic sweep recomputes every (endpoint, message type) frequency at the
current time, with no new arrival involved. -/
def cleanupAndUpdateStats (vehicles : List (String × Component)) (currentTime : ℚ) :
    List (String × Component) :=
  vehicles.map (fun p => (p.1, cleanupComponentStats p.2 currentTime))

/-- Seconds-of-day of a timestamp: the model of the displayed string
`datetime.fromtimestamp(ts).strftime("%H:%M:%S")` (interactive_tree.py line
192).  Two timestamps format to the same string exactly when they fall in the
same second of the (local) day, so the second-of-day integer is the canonical
form of the formatted text. -/
def formatTimeHMS (ts : ℚ) : ℤ := ⌊ts⌋ % 86400

/-- The view's status tuple `(timestamp_str, vehicle_id, text)`
(interactive_tree.py line 194). -/
def statusTuple (vehicleId : String) (m : StatusMsg) : ℤ × String × PyVal :=
  (formatTimeHMS m.timestamp, vehicleId, m.text)

/-- The body of the inner loop of `TreeView.collect_status_messages`
(interactive_tree.py lines 191-198): append the tuple unless it is already
present in the view's list. -/
def appendStatusTuple (statusMessages : List (ℤ × String × PyVal)) (vehicleId : String)
    (m : StatusMsg) : List (ℤ × String × PyVal) :=
  let msgTuple := statusTuple vehicleId m
  if msgTuple ∈ statusMessages then statusMessages else statusMessages ++ [msgTuple]

/-- The bound `TreeView.max_status_messages` (interactive_tree.py line 33). -/
def maxStatusMessages : ℕ := 100

/-- One vehicle's share of `TreeView.collect_status_messages`
(interactive_tree.py lines 188-202): process every stored bus message, then
trim to the most recent `maxStatusMessages` entries (Python `lst[-100:]`). -/
def collectVehicleStatus (statusMessages : List (ℤ × String × PyVal)) (vehicleId : String)
    (msgs : List StatusMsg) : List (ℤ × String × PyVal) :=
  if msgs.isEmpty then statusMessages
  else
    let sm := msgs.foldl (fun acc m => appendStatusTuple acc vehicleId m) statusMessages
    if maxStatusMessages < sm.length then sm.drop (sm.length - maxStatusMessages) else sm

/-- Embeds `TreeView.collect_status_messages` (interactive_tree.py lines 186-202):
one collection pass over all vehicles. -/
def collectStatusMessages (statusMessages : List (ℤ × String × PyVal))
    (vehicles : List (String × Component)) : List (ℤ × String × PyVal) :=
  vehicles.foldl (fun acc p => collectVehicleStatus acc p.1 p.2.status_messages) statusMessages

/-- A node of the nested-dictionary tree the projector builds
(interactive_tree.py): `_expanded`, optional `_children`, optional `_value`
(with its `_unit`), optional `_display_suffix`.  `children = none` models a
dict without a `_children` key (a leaf); `some []` an empty children dict. -/
inductive TNode : Type where
  | mk (expanded : Bool) (children : Option (List (String × TNode)))
      (value : Option PyVal) (unit : Option String) (display_suffix : Option String) : TNode

/-- The `_expanded` entry of a node. -/
def TNode.expanded : TNode → Bool
  | TNode.mk e _ _ _ _ => e

/-- The `_children` entry of a node, when present. -/
def TNode.children : TNode → Option (List (String × TNode))
  | TNode.mk _ cs _ _ _ => cs

/-- The `_value` entry of a node, when present. -/
def TNode.value : TNode → Option PyVal
  | TNode.mk _ _ v _ _ => v

/-- The `_unit` entry of a node, when present. -/
def TNode.unit : TNode → Option String
  | TNode.mk _ _ _ u _ => u

/-- The `_display_suffix` entry of a node, when present. -/
def TNode.display_suffix : TNode → Option String
  | TNode.mk _ _ _ _ s => s

/-- Python `"_children" in value` (interactive_tree.py line 43). -/
def TNode.hasChildren (n : TNode) : Bool := n.children.isSome

/-- The children dictionary, `{}` when the `_children` key is absent. -/
def TNode.childrenD (n : TNode) : List (String × TNode) := n.children.getD []

/-- A leaf node `{"_value": v, "_unit": "", "_expanded": False}`. -/
def leafNode (v : PyVal) : TNode :=
  TNode.mk false Option.none (some v) (some "") Option.none

/-- Python `.get("_children", {}).get(k, {})` on an optional node: descend one
level of a `.get` chain, absence propagating. -/
def childOf (n : Option TNode) (k : String) : Option TNode :=
  match n with
  | some node =>
    match node.children with
    | some cl => alookup k cl
    | Option.none => Option.none
  | Option.none => Option.none

/-- Python `.get("_expanded", dflt)` on an optional node. -/
def optExpanded (n : Option TNode) (dflt : Bool) : Bool :=
  match n with
  | some node => node.expanded
  | Option.none => dflt

/-- The frequency display suffix (interactive_tree.py lines 103-112): empty
when the message type has no stats entry. -/
def frequencyInfoFor (stats : List (String × StatEntry)) (msgType : String) : String :=
  match alookup msgType stats with
  | some st =>
    if 0 < st.frequency then
      " [" ++ formatFixed 1 st.frequency ++ " Hz, " ++ toString st.count ++ " msgs]"
    else " [" ++ toString st.count ++ " msgs]"
  | Option.none => ""

/-- One message-type node (interactive_tree.py lines 114-158): a dict payload
becomes one leaf per field, preceded by a `_frequency` pseudo-field when
frequency info is present; a plain payload is rendered as one leaf per line of
its string form, skipping a trailing empty line, with keys `001`, `002`, ...
(or `000` for a single-line payload). -/
def buildMsgNode (msgExpanded : Bool) (frequencyInfo : String) (msgData : MsgData) : TNode :=
  match msgData with
  | MsgData.dict fields =>
    let freqChildren : List (String × TNode) :=
      if frequencyInfo = "" then []
      else [("_frequency",
        TNode.mk false Option.none (some (PyVal.str (stripChars frequencyInfo ['[', ']', ' '])))
          (some "") Option.none)]
    let fieldChildren := fields.map (fun p => (p.1, leafNode (PyVal.str (displayValue p.2))))
    TNode.mk msgExpanded (some (freqChildren ++ fieldChildren)) Option.none Option.none
      (some frequencyInfo)
  | MsgData.val v =>
    let contentStr :=
      match v with
      | PyVal.float q => formatFixed 4 q
      | w => pyStr w
    let lines := contentStr.splitOn "\n"
    let lineChildren := lines.enum.filterMap (fun p =>
      if p.1 = lines.length - 1 ∧ p.2 = "" then Option.none
      else some ((if 1 < lines.length then natPad3 (p.1 + 1) else "000"),
        leafNode (PyVal.str p.2)))
    TNode.mk msgExpanded (some lineChildren) Option.none Option.none (some frequencyInfo)

/-- The "Messages" section node for one endpoint, parameterised by the
expansion flags the builder read from the previous generation
(interactive_tree.py lines 88-161). -/
def messagesShell (c : Component) (dataExpanded : Bool) (msgExpanded : String → Bool) : TNode :=
  TNode.mk dataExpanded
    (some (c.data.map (fun p =>
      (p.1, buildMsgNode (msgExpanded p.1) (frequencyInfoFor c.message_stats p.1) p.2))))
    Option.none Option.none Option.none

/-- The "Parameters" section node (interactive_tree.py lines 163-180).  In the
source the tree key is the `param_id` object itself; the model renders it as
its string form, exact for the string ids the protocol delivers. -/
def paramsShell (c : Component) (paramsExpanded : Bool) : TNode :=
  TNode.mk paramsExpanded
    (some (c.parameters.map (fun p => (pyStr p.1, leafNode (PyVal.str (displayValue p.2))))))
    Option.none Option.none Option.none

/-- One endpoint's vehicle node, parameterised by the four expansion flags the
builder reads from the previous generation.  The "System ID" / "Component ID"
leaves appear only when the ids are set; the "Messages" and "Parameters"
sections are attached only when non-empty, exactly as the source's
`if data_node["_children"]` and `if params_node["_children"]` guards do. -/
def vehicleShell (env : ℤ → String) (c : Component) (vehicleExpanded dataExpanded : Bool)
    (msgExpanded : String → Bool) (paramsExpanded : Bool) : TNode :=
  TNode.mk vehicleExpanded
    (some (
      (match c.system_id with
       | some sid => [("System ID", leafNode (PyVal.int sid))]
       | Option.none => [])
      ++ (match c.component_id with
          | some cid =>
            [("Component ID", leafNode (PyVal.str (toString cid ++ " " ++ env cid)))]
          | Option.none => [])
      ++ (if c.data = [] then [] else [("Messages", messagesShell c dataExpanded msgExpanded)])
      ++ (if c.parameters = [] then []
          else [("Parameters", paramsShell c paramsExpanded)])))
    Option.none Option.none Option.none

/-- One endpoint's share of `TreeView.build_data_from_vehicles`
(interactive_tree.py lines 66-182): read the four expansion-state flags from
the previous generation's tree through `.get` chains (with their defaults),
then construct the fresh node.  `env` stands for the external
`mavutil.mavlink.enums["MAV_COMPONENT"]` name lookup together with its
try/except fallback. -/
def buildVehicleNode (prevVehicle : Option TNode) (env : ℤ → String) (c : Component) : TNode :=
  vehicleShell env c
    (optExpanded prevVehicle true)
    (optExpanded (childOf prevVehicle "Messages") true)
    (fun mt => optExpanded (childOf (childOf prevVehicle "Messages") mt) false)
    (optExpanded (childOf prevVehicle "Parameters") false)

/-- Embeds `TreeView.build_data_from_vehicles` (interactive_tree.py lines
62-184): rebuild the whole tree from the vehicles dictionary, carrying every
endpoint's expansion flags over from the previous generation `prev`, keyed by
the stable path. -/
def buildDataFromVehicles (prev : List (String × TNode)) (env : ℤ → String)
    (vehicles : List (String × Component)) : List (String × TNode) :=
  vehicles.map (fun p => (p.1, buildVehicleNode (alookup p.1 prev) env p.2))

/-- Python `key.startswith("_")` (interactive_tree.py line 39), computed on
the string's character list so that it evaluates inside the kernel. -/
def startsWithUnderscore (s : String) : Bool :=
  match s.toList with
  | [] => false
  | ch :: _ => ch == '_'

/-- One row of the flattened tree (interactive_tree.py lines 46-53).  The
Python item's `"data"` entry is a reference to the node's dict; this
functional model represents the reference by the node's stable `path` from the
root, which `nodeAtPath` dereferences. -/
structure Item where
  key : String
  level : ℕ
  expanded : Bool
  has_children : Bool
  parent : String
  path : List String
deriving DecidableEq

/-- Embeds `TreeView.flatten_tree` (interactive_tree.py lines 35-60):
depth-first preorder flattening that skips underscore keys (and their whole
subtrees) and descends only into expanded containers.  `ancestry` accumulates
the stable path standing in for the Python node reference. -/
def flattenTree : List (String × TNode) → ℕ → String → List String → List Item
  | [], _, _, _ => []
  | (key, TNode.mk e cs _ _ _) :: rest, level, parentKey, ancestry =>
    (if startsWithUnderscore key then []
     else
       { key := key, level := level, expanded := e, has_children := cs.isSome,
         parent := parentKey, path := ancestry ++ [key] } ::
       (match cs, e with
        | some childList, true => flattenTree childList (level + 1) key (ancestry ++ [key])
        | _, _ => []))
    ++ flattenTree rest level parentKey ancestry

/-- Dereference a stable path from the root data dictionary to a node. -/
def nodeAtPath : List (String × TNode) → List String → Option TNode
  | _, [] => Option.none
  | data, [k] => alookup k data
  | data, k :: rest =>
    match alookup k data with
    | some n => nodeAtPath n.childrenD rest
    | Option.none => Option.none

/-- Rewrite the `_expanded` entry of one node dict in place. -/
def modifyNodeTop (f : Bool → Bool) : TNode → TNode
  | TNode.mk e cs v u s => TNode.mk (f e) cs v u s

/-- Rewrite the `_expanded` flag of the node a stable path points to: the
functional counterpart of the Python mutation
`item["data"]["_expanded"] = ...` through a flat-tree item's node reference.
A dangling path changes nothing. -/
def modifyExpandedAt : List (String × TNode) → List String → (Bool → Bool) → List (String × TNode)
  | data, [], _ => data
  | data, [k], f =>
    data.map (fun p => (p.1, if p.1 = k then modifyNodeTop f p.2 else p.2))
  | data, k :: rest, f =>
    data.map (fun p => (p.1,
      if p.1 = k then
        (match p.2 with
         | TNode.mk e cs v u s =>
           TNode.mk e (cs.map (fun cl => modifyExpandedAt cl rest f)) v u s)
      else p.2))

/-- The node transform `modifyExpandedAt` applies below the first path key. -/
def modifyNodeBelow (rest : List String) (f : Bool → Bool) : TNode → TNode
  | TNode.mk e cs v u s =>
    TNode.mk e (cs.map (fun cl => modifyExpandedAt cl rest f)) v u s

/-- The node transform `modifyExpandedAt` applies at the first path key: set
the flag when the path ends here, otherwise descend. -/
def nodeMod (rest : List String) (f : Bool → Bool) : TNode → TNode :=
  match rest with
  | [] => modifyNodeTop f
  | r :: rs => modifyNodeBelow (r :: rs) f

/-- Embeds `TreeView.toggle_expand` (interactive_tree.py lines 212-217):
guarded by `0 <= index < len(flat_tree)`; flips the selected item's node flag
only when the item has children. -/
def toggleExpand (data : List (String × TNode)) (flat : List Item) (index : ℤ) :
    List (String × TNode) :=
  if 0 ≤ index ∧ index < (flat.length : ℤ) then
    match flat.get? index.toNat with
    | some item =>
      if item.has_children then modifyExpandedAt data item.path (fun e => !e) else data
    | Option.none => data
  else data

/-- The expand-all / collapse-all loops (interactive_tree.py lines 391-398):
`for item in self.flat_tree: if item["has_children"]:
item["data"]["_expanded"] = b`, the node-reference mutations rendered as a
fold of path updates over the previously flattened items. -/
def setAllVisibleExpanded (data : List (String × TNode)) (flat : List Item) (b : Bool) :
    List (String × TNode) :=
  flat.foldl (fun acc item =>
    if item.has_children then modifyExpandedAt acc item.path (fun _ => b) else acc) data

/-- The keyboard-relevant state of `TreeView` (interactive_tree.py lines
25-33): the tree data, the flat tree from the last draw, the selection index
(a Python int), the status-panel toggle, the collected status tuples and the
running flag. -/
structure ViewState where
  data : List (String × TNode)
  flat_tree : List Item
  selected_index : ℤ
  show_status_messages : Bool
  status_messages : List (ℤ × String × PyVal)
  running : Bool

/-- The `TreeView.__init__` state (interactive_tree.py lines 18-33). -/
def initialViewState : ViewState :=
  { data := [], flat_tree := [], selected_index := 0, show_status_messages := true,
    status_messages := [], running := true }

/-- The state effect of `TreeView.draw_screen` (interactive_tree.py line 237):
recompute `flat_tree` from the current data.  The drawing itself goes to the
external terminal surface and does not touch this state. -/
def drawScreen (st : ViewState) : ViewState :=
  { st with flat_tree := flattenTree st.data 0 "Root" [] }

/-- Keyboard inputs of the main loop (interactive_tree.py lines 356-398). -/
inductive Key : Type where
  | quitKey | upKey | downKey | rightKey | leftKey | spaceKey | statusKey
  | expandAllKey | collapseAllKey | otherKey

/-- The backward parent scan of the left-arrow handler (interactive_tree.py
lines 379-386): move to the nearest previous row with a smaller level and the
parent's key; the selection is unchanged when no such row exists. -/
def scanParentIndex (flat : List Item) (selected : ℤ) (currentLevel : ℕ)
    (parentKey : String) : ℤ :=
  match (List.range selected.toNat).reverse.find? (fun i =>
    match flat.get? i with
    | some it => decide (it.level < currentLevel) && (it.key == parentKey)
    | Option.none => false) with
  | some i => (i : ℤ)
  | Option.none => selected

/-- Embeds the key dispatch of `TreeView.run` (interactive_tree.py lines
356-398). -/
def handleKey (st : ViewState) (key : Key) : ViewState :=
  match key with
  | Key.quitKey => { st with running := false }
  | Key.upKey => { st with selected_index := max 0 (st.selected_index - 1) }
  | Key.downKey =>
    { st with selected_index := min ((st.flat_tree.length : ℤ) - 1) (st.selected_index + 1) }
  | Key.rightKey =>
    if 0 ≤ st.selected_index ∧ st.selected_index < (st.flat_tree.length : ℤ) then
      match st.flat_tree.get? st.selected_index.toNat with
      | some item =>
        if item.has_children && !item.expanded then
          { st with data := modifyExpandedAt st.data item.path (fun _ => true) }
        else st
      | Option.none => st
    else st
  | Key.leftKey =>
    if 0 ≤ st.selected_index ∧ st.selected_index < (st.flat_tree.length : ℤ) then
      match st.flat_tree.get? st.selected_index.toNat with
      | some item =>
        if item.has_children && item.expanded then
          { st with data := modifyExpandedAt st.data item.path (fun _ => false) }
        else
          { st with selected_index :=
              scanParentIndex st.flat_tree st.selected_index item.level item.parent }
      | Option.none => st
    else st
  | Key.spaceKey => { st with data := toggleExpand st.data st.flat_tree st.selected_index }
  | Key.statusKey => { st with show_status_messages := !st.show_status_messages }
  | Key.expandAllKey => { st with data := setAllVisibleExpanded st.data st.flat_tree true }
  | Key.collapseAllKey => { st with data := setAllVisibleExpanded st.data st.flat_tree false }
  | Key.otherKey => st

/-- One iteration of the main loop (interactive_tree.py lines 350-398): draw,
recomputing the flat tree, then handle one key. -/
def loopStep (st : ViewState) (k : Key) : ViewState := handleKey (drawScreen st) k

/-- One tick of the background `TreeView.update_data` thread
(interactive_tree.py lines 204-210) against a fixed bus state. -/
def updateDataTick (st : ViewState) (env : ℤ → String)
    (vehicles : List (String × Component)) : ViewState :=
  { st with data := buildDataFromVehicles st.data env vehicles,
            status_messages := collectStatusMessages st.status_messages vehicles }

/-- The stable paths whose expansion flags `build_data_from_vehicles` carries
across generations: the endpoint root, the Messages section, each message-type
node and the Parameters section, for the sections that exist. -/
def trackedPaths (vehicles : List (String × Component)) : List (List String) :=
  vehicles.flatMap (fun p =>
    [[p.1]]
    ++ (if p.2.data = [] then []
        else [[p.1, "Messages"]] ++ p.2.data.map (fun q => [p.1, "Messages", q.1]))
    ++ (if p.2.parameters = [] then [] else [[p.1, "Parameters"]]))

/-- The observable the expansion claims speak about: the `_expanded` flag of
the node a stable path points to, when that path exists. -/
def expandedAt (data : List (String × TNode)) (p : List String) : Option Bool :=
  (nodeAtPath data p).map TNode.expanded

/-- Key uniqueness at every level of a tree: the invariant Python dictionaries
maintain by construction. -/
def treeNodup : List (String × TNode) → Bool
  | [] => true
  | (k, TNode.mk _ Option.none _ _ _) :: rest =>
    !(rest.any (fun p => p.1 == k)) && treeNodup rest
  | (k, TNode.mk _ (some cl) _ _ _) :: rest =>
    !(rest.any (fun p => p.1 == k)) && treeNodup cl && treeNodup rest

/-- A concrete endpoint carrying only its identity, for the view runs. -/
def viewComp : Component := { system_id := some 1, component_id := some 1 }

def viewVehicles : List (String × Component) := [("1:1", viewComp)]

/-- A trivial component-name environment for the concrete runs. -/
def env0 : ℤ → String := fun _ => ""

/-- The concrete key-driven run refuting claim C6's global invariant: one data
update, two presses of down (selection index 2 of 3 rows), collapse-all, then
the next draw (1 row). -/
def shrinkRunFinal : ViewState :=
  drawScreen (loopStep (loopStep (loopStep
    (updateDataTick initialViewState env0 viewVehicles)
    Key.downKey) Key.downKey) Key.collapseAllKey)

/-- The tree the update tick builds from `viewVehicles`, with root flag `b`. -/
def builtTree (b : Bool) : List (String × TNode) :=
  [("1:1", TNode.mk b
    (some [("System ID", leafNode (PyVal.int 1)), ("Component ID", leafNode (PyVal.str "1 "))])
    Option.none Option.none Option.none)]

def rootItem (b : Bool) : Item :=
  { key := "1:1", level := 0, expanded := b, has_children := true, parent := "Root",
    path := ["1:1"] }

def sysIdItem : Item :=
  { key := "System ID", level := 1, expanded := false, has_children := false, parent := "1:1",
    path := ["1:1", "System ID"] }

def compIdItem : Item :=
  { key := "Component ID", level := 1, expanded := false, has_children := false,
    parent := "1:1", path := ["1:1", "Component ID"] }

def flatThree : List Item := [rootItem true, sysIdItem, compIdItem]

def shrinkVs1 : ViewState := ⟨builtTree true, [], 0, true, [], true⟩

def shrinkVs2 : ViewState := ⟨builtTree true, flatThree, 1, true, [], true⟩

def shrinkVs3 : ViewState := ⟨builtTree true, flatThree, 2, true, [], true⟩

def shrinkVs4 : ViewState := ⟨builtTree false, flatThree, 2, true, [], true⟩

def shrinkVs5 : ViewState := ⟨builtTree false, [rootItem false], 2, true, [], true⟩

/-- A collapsed root container holding a collapsed child container: the nested
container is not part of the flattened tree. -/
def hiddenContainerData : List (String × TNode) :=
  [("A", TNode.mk false
      (some [("B", TNode.mk false (some []) Option.none Option.none Option.none)])
      Option.none Option.none Option.none)]

/-- An expanded root container with no children, for the C7 witness. -/
def c7WitnessData : List (String × TNode) :=
  [("A", TNode.mk true (some []) Option.none Option.none Option.none)]

/-- The single flat-tree row of `c7WitnessData`. -/
def c7WitnessItem : Item :=
  { key := "A", level := 0, expanded := true, has_children := true, parent := "Root",
    path := ["A"] }

/-- A childless flat-tree row, for the C10 witness. -/
def childlessItem : Item :=
  { key := "A", level := 0, expanded := false, has_children := false, parent := "Root",
    path := ["A"] }

/-- A concrete endpoint with one message type and one parameter, for the C5
witness. -/
def c5WitnessComp : Component :=
  { data := [("HEARTBEAT", MsgData.dict [])], parameters := [(PyVal.str "P", PyVal.int 1)] }

def c5WitnessVehicles : List (String × Component) := [("1:1", c5WitnessComp)]

/-- The trailing window described verbatim by claim C1 and spec section 4.2:
"drop all timestamps older than `t - 2.0s`", i.e. keep exactly the timestamps
with `t - 2 <= ts`.  Written from the spec's words, for comparison with
`recalculateFrequency`, whose filter keeps only `t - 2 < ts`. -/
def specClaimWindow (timestamps : List ℚ) (t : ℚ) : List ℚ :=
  timestamps.filter (fun ts => decide (t - 2 ≤ ts))

/-- A stats entry recorded at timestamps 0 and 2, probing the window boundary. -/
def boundaryEntry : StatEntry :=
  { count := 2, last_time := 2, first_time := 0, frequency := 0, recent_timestamps := [0, 2] }

def sweepWitnessEntry : StatEntry :=
  { count := 4, last_time := 9/10, first_time := 0, frequency := 10/3,
    recent_timestamps := [0, 3/10, 6/10, 9/10] }

def sweepWitnessComponent : Component := { message_stats := [("HEARTBEAT", sweepWitnessEntry)] }

/-- A bus state for exercising the status-log bound: one endpoint whose stored
(and never trimmed) bus-side list holds 101 distinct STATUSTEXT records, one
per second. -/
def statusBugMsgs : List StatusMsg :=
  (List.range 101).map (fun i => { timestamp := (i : ℚ), text := PyVal.str "x",
                                   severity := PyVal.int 6 })

def statusBugVehicles : List (String × Component) :=
  [("1:1", { status_messages := statusBugMsgs })]

def sevMsgA : StatusMsg := { timestamp := 10, text := PyVal.str "hello", severity := PyVal.int 6 }

def sevMsgB : StatusMsg := { timestamp := 10, text := PyVal.str "hello", severity := PyVal.int 3 }

def subSecMsgC : StatusMsg :=
  { timestamp := 10 + 1/2, text := PyVal.str "hello", severity := PyVal.int 6 }

/-- The full per-entry tuple named by claim C4, written from the spec's words:
`(timestamp, endpointId, text, severity)`. -/
def specClaimStatusTuple (vehicleId : String) (m : StatusMsg) : ℚ × String × PyVal × PyVal :=
  (m.timestamp, vehicleId, m.text, m.severity)

/-- A concrete malformed frame. -/
def badDataMsg : MavMsg :=
  { msgType := "BAD_DATA", srcSystem := 1, srcComponent := 1, dict := [], verboseDump := "" }

/-- The surviving window after a recomputation is the strict 2-second filter. -/
theorem recalc_recent_eq (e : StatEntry) (t : ℚ) :
    (recalculateFrequency e t).recent_timestamps
      = e.recent_timestamps.filter (fun ts => decide (t - 2 < ts)) := by
  by_cases h1 : 1 < (e.recent_timestamps.filter (fun ts => decide (t - 2 < ts))).length
  · by_cases h2 : 0 < t - (e.recent_timestamps.filter (fun ts => decide (t - 2 < ts))).headI
    · simp [recalculateFrequency, h1, h2]
    · simp [recalculateFrequency, h1, h2]
  · simp [recalculateFrequency, h1]

/-- Closed form of the recomputed frequency over the strict 2-second window. -/
theorem recalc_frequency_eq (e : StatEntry) (t : ℚ) :
    (recalculateFrequency e t).frequency =
      (if 2 ≤ (e.recent_timestamps.filter (fun ts => decide (t - 2 < ts))).length ∧
          0 < t - (e.recent_timestamps.filter (fun ts => decide (t - 2 < ts))).headI then
        (((e.recent_timestamps.filter (fun ts => decide (t - 2 < ts))).length : ℚ) - 1)
          / (t - (e.recent_timestamps.filter (fun ts => decide (t - 2 < ts))).headI)
      else 0) := by
  by_cases h1 : 1 < (e.recent_timestamps.filter (fun ts => decide (t - 2 < ts))).length
  · by_cases h2 : 0 < t - (e.recent_timestamps.filter (fun ts => decide (t - 2 < ts))).headI
    · rw [if_pos ⟨h1, h2⟩]
      simp [recalculateFrequency, h1, h2]
    · rw [if_neg (fun hc => h2 hc.2)]
      simp [recalculateFrequency, h1, h2]
  · rw [if_neg (fun hc => h1 hc.1)]
    simp [recalculateFrequency, h1]

/-- First-match lookup through an entrywise, key-respecting map. -/
theorem alookup_map_keyed {β γ : Type} (k : String) (l : List (String × β))
    (h : String → β → γ) :
    alookup k (l.map (fun p => (p.1, h p.1 p.2))) = (alookup k l).map (h k) := by
  induction l with
  | nil => rfl
  | cons a rest ih =>
    by_cases hk : a.1 = k
    · subst hk
      simp [alookup]
    · simp [alookup, hk, ih]

/-- Lookup misses a list none of whose keys match. -/
theorem alookup_eq_none_of_not_any {β : Type} (k : String) (l : List (String × β))
    (h : l.any (fun p => p.1 == k) = false) : alookup k l = Option.none := by
  induction l with
  | nil => rfl
  | cons a rest ih =>
    simp only [List.any_cons, Bool.or_eq_false_iff, beq_eq_false_iff_ne, ne_eq] at h
    simp [alookup, h.1, ih h.2]

/-- A present key is found. -/
theorem alookup_isSome_of_mem {β : Type} (k : String) (v : β) (l : List (String × β))
    (h : (k, v) ∈ l) : (alookup k l).isSome = true := by
  induction l with
  | nil => simp at h
  | cons a rest ih =>
    by_cases hk : a.1 = k
    · simp [alookup, hk]
    · rcases List.mem_cons.mp h with h1 | h1
      · exact absurd (congrArg Prod.fst h1.symm) hk
      · simp [alookup, hk, ih h1]

/-- First-match lookup through the key-guarded entrywise rewrite that
`modifyExpandedAt` performs. -/
theorem alookup_map_entrymod {β : Type} (k k0 : String) (l : List (String × β)) (g : β → β) :
    alookup k (l.map (fun p => (p.1, if p.1 = k0 then g p.2 else p.2)))
      = (alookup k l).map (fun n => if k = k0 then g n else n) := by
  induction l with
  | nil => rfl
  | cons a rest ih =>
    by_cases hk : a.1 = k
    · subst hk
      simp [alookup]
    · simp [alookup, hk, ih]

theorem nodeAtPath_nil_path (d : List (String × TNode)) : nodeAtPath d [] = Option.none := rfl

theorem nodeAtPath_single (d : List (String × TNode)) (k : String) :
    nodeAtPath d [k] = alookup k d := rfl

theorem nodeAtPath_cons_cons (d : List (String × TNode)) (k k' : String) (rest : List String) :
    nodeAtPath d (k :: k' :: rest)
      = (match alookup k d with
         | some n => nodeAtPath n.childrenD (k' :: rest)
         | Option.none => Option.none) := rfl

theorem nodeAtPath_nil_data : ∀ p : List String, nodeAtPath ([] : List (String × TNode)) p = Option.none
  | [] => rfl
  | [_] => rfl
  | _ :: _ :: _ => rfl

theorem modify_single (d : List (String × TNode)) (k : String) (f : Bool → Bool) :
    modifyExpandedAt d [k] f
      = d.map (fun p => (p.1, if p.1 = k then modifyNodeTop f p.2 else p.2)) := rfl

/-- The two-or-more-key case of `modifyExpandedAt`, phrased with the node
transform factored out. -/
theorem modify_cons_cons (d : List (String × TNode)) (k k' : String) (rest : List String)
    (f : Bool → Bool) :
    modifyExpandedAt d (k :: k' :: rest) f
      = d.map (fun p => (p.1, if p.1 = k then modifyNodeBelow (k' :: rest) f p.2 else p.2)) := by
  unfold modifyExpandedAt
  congr 1

/-- Rewriting the flag at a path maps the flag the path reads. -/
theorem expandedAt_modify_self (p : List String) (f : Bool → Bool) :
    ∀ d, expandedAt (modifyExpandedAt d p f) p = (expandedAt d p).map f := by
  induction p with
  | nil => intro d; rfl
  | cons k t ih =>
    intro d
    cases t with
    | nil =>
      simp only [expandedAt, nodeAtPath_single, modify_single, alookup_map_entrymod]
      cases alookup k d with
      | none => rfl
      | some n =>
        rcases n
        simp [modifyNodeTop, TNode.expanded]
    | cons k' rest =>
      simp only [expandedAt, nodeAtPath_cons_cons, modify_cons_cons, alookup_map_entrymod]
      cases alookup k d with
      | none => rfl
      | some n =>
        rcases n with ⟨e, cs, v, u, s⟩
        cases cs with
        | none =>
          simp [modifyNodeBelow, TNode.childrenD, TNode.children, nodeAtPath_nil_data]
        | some cl =>
          have hcl := ih cl
          simp only [expandedAt] at hcl
          simp [modifyNodeBelow, TNode.childrenD, TNode.children, hcl]

/-- Rewriting the flag at one path leaves the flag read at any other path
unchanged. -/
theorem expandedAt_modify_other (q : List String) (f : Bool → Bool) :
    ∀ (p : List String) (d : List (String × TNode)), p ≠ q →
      expandedAt (modifyExpandedAt d q f) p = expandedAt d p := by
  induction q with
  | nil => intro p d _; rfl
  | cons kq tq ihq =>
    intro p d hpq
    cases tq with
    | nil =>
      cases p with
      | nil => rfl
      | cons kp tp =>
        cases tp with
        | nil =>
          have hk : kp ≠ kq := fun h => hpq (by rw [h])
          simp only [expandedAt, nodeAtPath_single, modify_single, alookup_map_entrymod]
          cases alookup kp d with
          | none => rfl
          | some n => simp [hk]
        | cons kp' tp' =>
          simp only [expandedAt, nodeAtPath_cons_cons, modify_single, alookup_map_entrymod]
          cases alookup kp d with
          | none => rfl
          | some n =>
            by_cases hk : kp = kq
            · rcases n
              simp [hk, modifyNodeTop, TNode.childrenD, TNode.children]
            · simp [hk]
    | cons kq' tq' =>
      cases p with
      | nil => rfl
      | cons kp tp =>
        by_cases hk : kp = kq
        · subst hk
          have htp : tp ≠ kq' :: tq' := fun h => hpq (by rw [h])
          cases tp with
          | nil =>
            simp only [expandedAt, nodeAtPath_single, modify_cons_cons, alookup_map_entrymod]
            cases alookup kp d with
            | none => rfl
            | some n =>
              rcases n
              simp [modifyNodeBelow, TNode.expanded]
          | cons kp' tp' =>
            simp only [expandedAt, nodeAtPath_cons_cons, modify_cons_cons, alookup_map_entrymod]
            cases alookup kp d with
            | none => rfl
            | some n =>
              rcases n with ⟨e, cs, v, u, s⟩
              cases cs with
              | none =>
                simp [modifyNodeBelow, TNode.childrenD, TNode.children, nodeAtPath_nil_data]
              | some cl =>
                have := ihq (kp' :: tp') cl htp
                simp only [expandedAt] at this
                simp [modifyNodeBelow, TNode.childrenD, TNode.children, this]
        · cases tp with
          | nil =>
            simp only [expandedAt, nodeAtPath_single, modify_cons_cons, alookup_map_entrymod]
            cases alookup kp d with
            | none => rfl
            | some n => simp [hk]
          | cons kp' tp' =>
            simp only [expandedAt, nodeAtPath_cons_cons, modify_cons_cons, alookup_map_entrymod]
            cases alookup kp d with
            | none => rfl
            | some n => simp [hk]

/-- Skipping the head of an association list under a key mismatch. -/
theorem nodeAtPath_cons_ne (k r0 : String) (n : TNode) (rest : List (String × TNode))
    (r' : List String) (h : k ≠ r0) :
    nodeAtPath ((k, n) :: rest) (r0 :: r') = nodeAtPath rest (r0 :: r') := by
  cases r' with
  | nil => simp [nodeAtPath_single, alookup, h]
  | cons a b => simp [nodeAtPath_cons_cons, alookup, h]

/-- A successful path dereference starts with a successful head lookup. -/
theorem isSome_alookup_of_nodeAtPath (l : List (String × TNode)) (r0 : String) (r' : List String)
    (h : (nodeAtPath l (r0 :: r')).isSome = true) : (alookup r0 l).isSome = true := by
  cases r' with
  | nil => simpa [nodeAtPath_single] using h
  | cons a b =>
    rw [nodeAtPath_cons_cons] at h
    cases hl : alookup r0 l with
    | none => rw [hl] at h; simp at h
    | some n => simp

/-- Every path a flattened item carries dereferences to a node of the tree,
provided the tree has unique keys per level (the invariant Python dicts
maintain); the item's path extends the ancestry by at least one key. -/
theorem nodeAtPath_sibling (key : String) (n : TNode) (rest : List (String × TNode))
    (hkey : (rest.any (fun p => p.1 == key)) = false)
    (rel : List String) (hne0 : rel ≠ [])
    (hsome : (nodeAtPath rest rel).isSome = true) :
    (nodeAtPath ((key, n) :: rest) rel).isSome = true := by
  rcases rel with _ | ⟨r0, r'⟩
  · exact absurd rfl hne0
  · by_cases hr : key = r0
    · exfalso
      have hnone : alookup r0 rest = Option.none := by
        apply alookup_eq_none_of_not_any
        rw [← hr]
        exact hkey
      have hs := isSome_alookup_of_nodeAtPath rest r0 r' hsome
      rw [hnone] at hs
      simp at hs
    · rw [nodeAtPath_cons_ne _ _ _ _ _ hr]
      exact hsome

/-- Every path a flattened item carries dereferences to a node of the tree,
provided the tree has unique keys per level (the invariant Python dicts
maintain); the item's path extends the ancestry by at least one key. -/
theorem flatten_paths_exist (d : List (String × TNode)) (lvl : ℕ) (pk : String)
    (anc : List String) :
    treeNodup d = true →
    ∀ i ∈ flattenTree d lvl pk anc,
      ∃ rel, rel ≠ [] ∧ i.path = anc ++ rel ∧ (nodeAtPath d rel).isSome = true := by
  induction d, lvl, pk, anc using flattenTree.induct with
  | case1 lvl pk anc =>
    intro _ i hi
    simp [flattenTree] at hi
  | case2 key e cs vv u s rest level parentKey ancestry ih1 ih2 =>
    intro hnd i hi
    rcases cs with _ | cl
    · simp only [treeNodup, Bool.and_eq_true] at hnd
      obtain ⟨hkey, hrest⟩ := hnd
      cases e <;>
      · simp only [flattenTree] at hi
        rcases List.mem_append.mp hi with hmem | hmem
        · by_cases hu : startsWithUnderscore key = true
          · rw [if_pos hu] at hmem
            simp at hmem
          · rw [if_neg hu] at hmem
            rcases List.mem_cons.mp hmem with hitem | hchild
            · refine ⟨[key], by simp, by rw [hitem], ?_⟩
              simp [nodeAtPath_single, alookup]
            · simp at hchild
        · obtain ⟨rel, hne0, hpath, hsome⟩ := ih2 hrest i hmem
          exact ⟨rel, hne0, hpath,
            nodeAtPath_sibling key _ rest (by simpa using hkey) rel hne0 hsome⟩
    · simp only [treeNodup, Bool.and_eq_true] at hnd
      obtain ⟨⟨hkey, hcl⟩, hrest⟩ := hnd
      cases e with
      | false =>
        simp only [flattenTree] at hi
        rcases List.mem_append.mp hi with hmem | hmem
        · by_cases hu : startsWithUnderscore key = true
          · rw [if_pos hu] at hmem
            simp at hmem
          · rw [if_neg hu] at hmem
            rcases List.mem_cons.mp hmem with hitem | hchild
            · refine ⟨[key], by simp, by rw [hitem], ?_⟩
              simp [nodeAtPath_single, alookup]
            · simp at hchild
        · obtain ⟨rel, hne0, hpath, hsome⟩ := ih2 hrest i hmem
          exact ⟨rel, hne0, hpath,
            nodeAtPath_sibling key _ rest (by simpa using hkey) rel hne0 hsome⟩
      | true =>
        simp only [flattenTree] at hi
        rcases List.mem_append.mp hi with hmem | hmem
        · by_cases hu : startsWithUnderscore key = true
          · rw [if_pos hu] at hmem
            simp at hmem
          · rw [if_neg hu] at hmem
            rcases List.mem_cons.mp hmem with hitem | hchild
            · refine ⟨[key], by simp, by rw [hitem], ?_⟩
              simp [nodeAtPath_single, alookup]
            · obtain ⟨rel, hne0, hpath, hsome⟩ := ih1 hcl i hchild
              rcases rel with _ | ⟨r0, r'⟩
              · exact absurd rfl hne0
              · refine ⟨key :: r0 :: r', by simp, by simp [hpath], ?_⟩
                simpa [nodeAtPath_cons_cons, alookup, TNode.childrenD, TNode.children]
                  using hsome
        · obtain ⟨rel, hne0, hpath, hsome⟩ := ih2 hrest i hmem
          exact ⟨rel, hne0, hpath,
            nodeAtPath_sibling key _ rest (by simpa using hkey) rel hne0 hsome⟩

/-- One expand-all / collapse-all step keeps a flag that already equals `b`. -/
theorem setAll_step_keeps (b : Bool) (j : Item) (p : List String) (d : List (String × TNode))
    (h : expandedAt d p = some b) :
    expandedAt (if j.has_children then modifyExpandedAt d j.path (fun _ => b) else d) p
      = some b := by
  by_cases hjc : j.has_children = true
  · simp only [hjc, if_true]
    by_cases hpq : p = j.path
    · subst hpq
      rw [expandedAt_modify_self, h]
      rfl
    · rw [expandedAt_modify_other j.path (fun _ => b) p d hpq]
      exact h
  · simp only [Bool.not_eq_true] at hjc
    simpa [hjc] using h

/-- One expand-all / collapse-all step keeps every existing path existing. -/
theorem setAll_step_isSome (b : Bool) (j : Item) (p : List String) (d : List (String × TNode))
    (h : (expandedAt d p).isSome = true) :
    (expandedAt (if j.has_children then modifyExpandedAt d j.path (fun _ => b) else d) p).isSome
      = true := by
  by_cases hjc : j.has_children = true
  · simp only [hjc, if_true]
    by_cases hpq : p = j.path
    · subst hpq
      rw [expandedAt_modify_self]
      simpa using h
    · rw [expandedAt_modify_other j.path (fun _ => b) p d hpq]
      exact h
  · simp only [Bool.not_eq_true] at hjc
    simpa [hjc] using h

/-- The whole expand-all / collapse-all fold keeps a flag already set to `b`. -/
theorem setAll_keeps (flat : List Item) (b : Bool) (p : List String) :
    ∀ d, expandedAt d p = some b →
      expandedAt (setAllVisibleExpanded d flat b) p = some b := by
  induction flat with
  | nil => intro d h; exact h
  | cons j rest ih =>
    intro d h
    exact ih _ (setAll_step_keeps b j p d h)

/-- The expand-all / collapse-all press sets the flag of every displayed
container item to `b`, provided each displayed path dereferences (which
`flatten_paths_exist` supplies). -/
theorem setAll_sets_visible_flags (flat : List Item) (b : Bool) :
    ∀ d, (∀ i ∈ flat, (expandedAt d i.path).isSome = true) →
      ∀ i ∈ flat, i.has_children = true →
        expandedAt (setAllVisibleExpanded d flat b) i.path = some b := by
  induction flat with
  | nil =>
    intro d _ i hi
    simp at hi
  | cons j rest ih =>
    intro d hsome i hi hc
    rcases List.mem_cons.mp hi with h1 | h1
    · subst h1
      have hs : (expandedAt d i.path).isSome = true := hsome i hi
      have hset : expandedAt (if i.has_children then modifyExpandedAt d i.path (fun _ => b)
          else d) i.path = some b := by
        simp only [hc, if_true]
        rw [expandedAt_modify_self]
        rcases Option.isSome_iff_exists.mp hs with ⟨x, hx⟩
        rw [hx]
        rfl
      exact setAll_keeps rest b i.path _ hset
    · exact ih _
        (fun i' hi' => setAll_step_isSome b j i'.path d (hsome i' (List.mem_cons_of_mem j hi')))
        i h1 hc

/-- The expand-all / collapse-all press leaves every path that is not among
the displayed rows unchanged. -/
theorem setAll_other_paths (flat : List Item) (b : Bool) (p : List String) :
    ∀ d, (∀ i ∈ flat, i.path ≠ p) →
      expandedAt (setAllVisibleExpanded d flat b) p = expandedAt d p := by
  induction flat with
  | nil => intro d _; rfl
  | cons j rest ih =>
    intro d hne
    have hstep : expandedAt (if j.has_children then modifyExpandedAt d j.path (fun _ => b)
        else d) p = expandedAt d p := by
      by_cases hjc : j.has_children = true
      · simp only [hjc, if_true]
        exact expandedAt_modify_other j.path (fun _ => b) p d
          (Ne.symm (hne j (List.mem_cons_self j rest)))
      · simp only [Bool.not_eq_true] at hjc
        simp [hjc]
    exact (ih _ (fun i hi => hne i (List.mem_cons_of_mem j hi))).trans hstep

theorem shrink_step1 : updateDataTick initialViewState env0 viewVehicles = shrinkVs1 := rfl

theorem su_vid : startsWithUnderscore "1:1" = false := rfl

theorem su_sys : startsWithUnderscore "System ID" = false := rfl

theorem su_comp : startsWithUnderscore "Component ID" = false := rfl

theorem shrink_flatten_expanded :
    flattenTree (builtTree true) 0 "Root" [] = flatThree := by
  simp [flattenTree, builtTree, leafNode, flatThree, rootItem, sysIdItem, compIdItem,
    su_vid, su_sys, su_comp]

theorem shrink_flatten_collapsed :
    flattenTree (builtTree false) 0 "Root" [] = [rootItem false] := by
  simp [flattenTree, builtTree, leafNode, rootItem, su_vid]

theorem shrink_step2 : loopStep shrinkVs1 Key.downKey = shrinkVs2 := by
  show handleKey (drawScreen shrinkVs1) Key.downKey = shrinkVs2
  rw [drawScreen]
  show handleKey ⟨builtTree true, flattenTree (builtTree true) 0 "Root" [], 0, true, [], true⟩
      Key.downKey = shrinkVs2
  rw [shrink_flatten_expanded]
  rfl

theorem shrink_step3 : loopStep shrinkVs2 Key.downKey = shrinkVs3 := by
  show handleKey (drawScreen shrinkVs2) Key.downKey = shrinkVs3
  rw [drawScreen]
  show handleKey ⟨builtTree true, flattenTree (builtTree true) 0 "Root" [], 1, true, [], true⟩
      Key.downKey = shrinkVs3
  rw [shrink_flatten_expanded]
  rfl

theorem shrink_step4 : loopStep shrinkVs3 Key.collapseAllKey = shrinkVs4 := by
  show handleKey (drawScreen shrinkVs3) Key.collapseAllKey = shrinkVs4
  rw [drawScreen]
  show handleKey ⟨builtTree true, flattenTree (builtTree true) 0 "Root" [], 2, true, [], true⟩
      Key.collapseAllKey = shrinkVs4
  rw [shrink_flatten_expanded]
  rfl

theorem shrink_step5 : drawScreen shrinkVs4 = shrinkVs5 := by
  rw [drawScreen]
  show (⟨builtTree false, flattenTree (builtTree false) 0 "Root" [], 2, true, [], true⟩
      : ViewState) = shrinkVs5
  rw [shrink_flatten_collapsed]
  rfl

/-- C6 counterexample: a reachable state that violates the claimed global
in-range invariant.  From the initial state, one data-update tick builds a
three-row tree (root "1:1" expanded over its two id leaves); two down presses
select index 2; one collapse-all press collapses the root; the next draw
leaves a single row while the selection index is still 2 — not `< 1` — since
nothing re-clamps the selection when the flattened list shrinks. -/
theorem C6_shrink_keeps_stale_selection :
    shrinkRunFinal.selected_index = 2 ∧
    shrinkRunFinal.flat_tree.length = 1 ∧
    ¬ (shrinkRunFinal.selected_index < (shrinkRunFinal.flat_tree.length : ℤ)) := by
  have h : shrinkRunFinal = shrinkVs5 := by
    unfold shrinkRunFinal
    rw [shrink_step1, shrink_step2, shrink_step3, shrink_step4, shrink_step5]
  rw [h]
  exact ⟨rfl, rfl, by decide⟩

/-- C6 (amended): pressing up at index 0 leaves the selection at 0; pressing
down at the last index leaves it at the last index; and when the selection is
in range, up and down keep it in `[0, len)`.  The selection is however not
re-clamped when the flattened list shrinks between key presses, so the global
`selected < len(items)` invariant does not hold across updates. -/
theorem C6_amended_up_down_clamping (st : ViewState) :
    (st.selected_index = 0 → (handleKey st Key.upKey).selected_index = 0) ∧
    (st.selected_index = (st.flat_tree.length : ℤ) - 1 →
      (handleKey st Key.downKey).selected_index = (st.flat_tree.length : ℤ) - 1) ∧
    (0 ≤ st.selected_index → st.selected_index < (st.flat_tree.length : ℤ) →
      (0 ≤ (handleKey st Key.upKey).selected_index ∧
        (handleKey st Key.upKey).selected_index < (st.flat_tree.length : ℤ)) ∧
      (0 ≤ (handleKey st Key.downKey).selected_index ∧
        (handleKey st Key.downKey).selected_index < (st.flat_tree.length : ℤ))) := by
  refine ⟨fun h => ?_, fun h => ?_, fun h0 hlen => ?_⟩ <;>
    simp only [handleKey] <;> omega

/-- C6 witness: pressing up in the freshly initialised view stays at 0. -/
theorem C6_amended_up_down_clamping_witness :
    (handleKey initialViewState Key.upKey).selected_index = 0 :=
  (C6_amended_up_down_clamping initialViewState).1 rfl

unseal flattenTree treeNodup in
/-- C7 counterexample: with the root container "A" collapsed and an inner
container at path "A"/"B", pressing expand-all expands "A" — the only
displayed container — but leaves the hidden container "B" collapsed, so the
keypress does not set every container's flag. -/
theorem C7_expand_all_misses_hidden :
    expandedAt (setAllVisibleExpanded hiddenContainerData
        (flattenTree hiddenContainerData 0 "Root" []) true) ["A"] = some true ∧
    expandedAt (setAllVisibleExpanded hiddenContainerData
        (flattenTree hiddenContainerData 0 "Root" []) true) ["A", "B"] = some false := by
  decide

/-- C7 (amended): pressing the expand-all key sets the expansion flag of every
currently displayed container — every flattened row with children — to true,
and the collapse-all key sets the same flags to false; the flag of any node
whose stable path is not among the flattened rows, in particular a container
nested beneath a collapsed ancestor, is left unchanged. -/
theorem C7_amended_visible_containers_only (d : List (String × TNode)) (b : Bool)
    (hnd : treeNodup d = true) :
    (∀ i ∈ flattenTree d 0 "Root" [], i.has_children = true →
      expandedAt (setAllVisibleExpanded d (flattenTree d 0 "Root" []) b) i.path = some b) ∧
    (∀ p : List String, (∀ i ∈ flattenTree d 0 "Root" [], i.path ≠ p) →
      expandedAt (setAllVisibleExpanded d (flattenTree d 0 "Root" []) b) p = expandedAt d p) := by
  constructor
  · intro i hi hc
    refine setAll_sets_visible_flags (flattenTree d 0 "Root" []) b d ?_ i hi hc
    intro i' hi'
    obtain ⟨rel, _, hpath, hsome⟩ := flatten_paths_exist d 0 "Root" [] hnd i' hi'
    rw [expandedAt, hpath, List.nil_append]
    simpa using hsome
  · intro p hp
    exact setAll_other_paths (flattenTree d 0 "Root" []) b p d hp

unseal flattenTree treeNodup in
/-- C7 witness: collapse-all on a single expanded container collapses it. -/
theorem C7_amended_visible_containers_only_witness :
    expandedAt (setAllVisibleExpanded c7WitnessData (flattenTree c7WitnessData 0 "Root" []) false)
      ["A"] = some false :=
  (C7_amended_visible_containers_only c7WitnessData false (by decide)).1 c7WitnessItem
    (by decide) rfl

/-- C10: `toggle_expand` with an index outside `[0, len(flat_tree))` is a
no-op on the tree data (and touches no other view state), and an in-range
index whose item has no children is likewise a no-op. -/
theorem C10_toggle_expand_guard (data : List (String × TNode)) (flat : List Item) (index : ℤ) :
    (¬ (0 ≤ index ∧ index < (flat.length : ℤ)) → toggleExpand data flat index = data) ∧
    (∀ item : Item, 0 ≤ index → flat.get? index.toNat = some item →
      item.has_children = false → toggleExpand data flat index = data) := by
  constructor
  · intro h
    simp only [toggleExpand, h, if_false]
  · intro item h0 hget hnc
    have hlt' : index.toNat < flat.length := (List.get?_eq_some.mp hget).1
    have hlt : index < (flat.length : ℤ) := by
      omega
    simp only [toggleExpand, h0, hlt, and_self, if_true, hget, hnc]
    simp

/-- C10 witness: an in-range childless row leaves the data untouched. -/
theorem C10_toggle_expand_guard_witness :
    toggleExpand hiddenContainerData [childlessItem] 0 = hiddenContainerData :=
  (C10_toggle_expand_guard hiddenContainerData [childlessItem] 0).2 childlessItem
    (by decide) rfl rfl

/-- Unique keys make first-match lookup find a member's own value. -/
theorem alookup_self_nodup {β : Type} (k : String) (v : β) (l : List (String × β))
    (hmem : (k, v) ∈ l) (hnd : (l.map Prod.fst).Nodup) : alookup k l = some v := by
  induction l with
  | nil => simp at hmem
  | cons a rest ih =>
    simp only [List.map_cons, List.nodup_cons] at hnd
    rcases List.mem_cons.mp hmem with h1 | h1
    · rw [← h1]
      simp [alookup]
    · have hk : a.1 ≠ k := by
        intro he
        exact hnd.1 (he ▸ List.mem_map_of_mem Prod.fst h1)
      simp [alookup, hk, ih h1 hnd.2]

theorem string_ne_facts :
    ("System ID" : String) ≠ "Messages" ∧ ("Component ID" : String) ≠ "Messages" ∧
    ("Parameters" : String) ≠ "Messages" ∧ ("System ID" : String) ≠ "Parameters" ∧
    ("Component ID" : String) ≠ "Parameters" ∧ ("Messages" : String) ≠ "Parameters" := by
  refine ⟨?_, ?_, ?_, ?_, ?_, ?_⟩ <;> decide

/-- The first key of `modifyExpandedAt` distributes as an entrywise node
transform. -/
theorem modify_cons_general (d : List (String × TNode)) (k : String) (rest : List String)
    (f : Bool → Bool) :
    modifyExpandedAt d (k :: rest) f
      = d.map (fun p => (p.1, if p.1 = k then nodeMod rest f p.2 else p.2)) := by
  cases rest with
  | nil => exact modify_single d k f
  | cons r rs => exact modify_cons_cons d k r rs f

theorem buildMsgNode_expanded (fl : Bool) (fi : String) (md : MsgData) :
    (buildMsgNode fl fi md).expanded = fl := by
  cases md <;> rfl

theorem buildMsgNode_modifyTop (f : Bool → Bool) (fl : Bool) (fi : String) (md : MsgData) :
    modifyNodeTop f (buildMsgNode fl fi md) = buildMsgNode (f fl) fi md := by
  cases md <;> rfl

/-- Reading the "Messages" child of a freshly built endpoint node. -/
theorem childOf_vehicleShell_messages (env : ℤ → String) (c : Component)
    (f1 f2 f4 : Bool) (f3 : String → Bool) :
    childOf (some (vehicleShell env c f1 f2 f3 f4)) "Messages"
      = if c.data = [] then Option.none else some (messagesShell c f2 f3) := by
  obtain ⟨ne1, ne2, ne3, ne4, ne5, ne6⟩ := string_ne_facts
  rcases hsid : c.system_id with _ | sid <;> rcases hcid : c.component_id with _ | cid <;>
    by_cases hd : c.data = [] <;> by_cases hp : c.parameters = [] <;>
      simp [childOf, vehicleShell, TNode.children, alookup, hsid, hcid, hd, hp,
        ne1, ne2, ne3]

/-- Reading the "Parameters" child of a freshly built endpoint node. -/
theorem childOf_vehicleShell_params (env : ℤ → String) (c : Component)
    (f1 f2 f4 : Bool) (f3 : String → Bool) :
    childOf (some (vehicleShell env c f1 f2 f3 f4)) "Parameters"
      = if c.parameters = [] then Option.none else some (paramsShell c f4) := by
  obtain ⟨ne1, ne2, ne3, ne4, ne5, ne6⟩ := string_ne_facts
  rcases hsid : c.system_id with _ | sid <;> rcases hcid : c.component_id with _ | cid <;>
    by_cases hd : c.data = [] <;> by_cases hp : c.parameters = [] <;>
      simp [childOf, vehicleShell, TNode.children, alookup, hsid, hcid, hd, hp,
        ne4, ne5, ne6]

/-- Reading one message-type child of a freshly built "Messages" node. -/
theorem childOf_messagesShell (c : Component) (f2 : Bool) (f3 : String → Bool) (mt : String) :
    childOf (some (messagesShell c f2 f3)) mt
      = (alookup mt c.data).map
          (fun md => buildMsgNode (f3 mt) (frequencyInfoFor c.message_stats mt) md) := by
  simp only [childOf, messagesShell, TNode.children]
  exact alookup_map_keyed mt c.data
    (fun key md => buildMsgNode (f3 key) (frequencyInfoFor c.message_stats key) md)

/-- Two "Messages" nodes built from the same data agree when their per-type
flags agree on the data's keys. -/
theorem messagesShell_congr (c : Component) (f2 : Bool) (f3 g3 : String → Bool)
    (h3 : ∀ q ∈ c.data, f3 q.1 = g3 q.1) :
    messagesShell c f2 f3 = messagesShell c f2 g3 := by
  unfold messagesShell
  congr 1
  congr 1
  apply List.map_congr_left
  intro q hq
  rw [h3 q hq]

/-- The built endpoint node depends on its flags only where the guards let
them through. -/
theorem vehicleShell_congr (env : ℤ → String) (c : Component)
    (f1 f2 f4 g2 g4 : Bool) (f3 g3 : String → Bool)
    (h2 : c.data ≠ [] → f2 = g2)
    (h3 : ∀ q ∈ c.data, f3 q.1 = g3 q.1)
    (h4 : c.parameters ≠ [] → f4 = g4) :
    vehicleShell env c f1 f2 f3 f4 = vehicleShell env c f1 g2 g3 g4 := by
  unfold vehicleShell
  have hmsg : (if c.data = [] then ([] : List (String × TNode))
      else [("Messages", messagesShell c f2 f3)])
      = (if c.data = [] then [] else [("Messages", messagesShell c g2 g3)]) := by
    by_cases hd : c.data = []
    · rw [if_pos hd, if_pos hd]
    · rw [if_neg hd, if_neg hd, h2 hd, messagesShell_congr c g2 f3 g3 h3]
  have hpar : (if c.parameters = [] then ([] : List (String × TNode))
      else [("Parameters", paramsShell c f4)])
      = (if c.parameters = [] then [] else [("Parameters", paramsShell c g4)]) := by
    by_cases hp : c.parameters = []
    · rw [if_pos hp, if_pos hp]
    · rw [if_neg hp, if_neg hp, h4 hp]
  rw [hmsg, hpar]

/-- Rebuilding an endpoint node from its own previous build output reproduces
it: every flag the builder reads back from the built node is the flag it was
built with, wherever the corresponding section exists. -/
theorem buildVehicleNode_of_shell (env : ℤ → String) (c : Component)
    (f1 f2 f4 : Bool) (f3 : String → Bool) :
    buildVehicleNode (some (vehicleShell env c f1 f2 f3 f4)) env c
      = vehicleShell env c f1 f2 f3 f4 := by
  have e2 : optExpanded (childOf (some (vehicleShell env c f1 f2 f3 f4)) "Messages") true
      = (if c.data = [] then true else f2) := by
    rw [childOf_vehicleShell_messages]
    by_cases hd : c.data = []
    · rw [if_pos hd, if_pos hd]
      rfl
    · rw [if_neg hd, if_neg hd]
      rfl
  have e4 : optExpanded (childOf (some (vehicleShell env c f1 f2 f3 f4)) "Parameters") false
      = (if c.parameters = [] then false else f4) := by
    rw [childOf_vehicleShell_params]
    by_cases hp : c.parameters = []
    · rw [if_pos hp, if_pos hp]
      rfl
    · rw [if_neg hp, if_neg hp]
      rfl
  unfold buildVehicleNode
  rw [e2, e4]
  refine vehicleShell_congr env c _ _ _ _ _ _ _ (fun hd => by rw [if_neg hd]) ?_
    (fun hp => by rw [if_neg hp])
  intro q hq
  have hd : c.data ≠ [] := by
    intro h
    rw [h] at hq
    simp at hq
  rw [childOf_vehicleShell_messages, if_neg hd, childOf_messagesShell]
  rcases Option.isSome_iff_exists.mp
    (alookup_isSome_of_mem q.1 q.2 c.data (by simpa using hq)) with ⟨md, hmd⟩
  rw [hmd]
  show (buildMsgNode (f3 q.1) (frequencyInfoFor c.message_stats q.1) md).expanded = f3 q.1
  exact buildMsgNode_expanded _ _ _

/-- Rebuild idempotence at the node level. -/
theorem buildVehicleNode_idem (pv : Option TNode) (env : ℤ → String) (c : Component) :
    buildVehicleNode (some (buildVehicleNode pv env c)) env c = buildVehicleNode pv env c :=
  buildVehicleNode_of_shell env c _ _ _ _

/-- Setting the root flag of a built node rebuilds stably. -/
theorem modifyTop_shell (env : ℤ → String) (c : Component) (b : Bool)
    (f1 f2 f4 : Bool) (f3 : String → Bool) :
    modifyNodeTop (fun _ => b) (vehicleShell env c f1 f2 f3 f4)
      = vehicleShell env c b f2 f3 f4 := rfl

/-- Setting the "Messages" flag inside a built node yields the node built with
that flag. -/
theorem modifyBelow_messages (env : ℤ → String) (c : Component) (b : Bool)
    (f1 f2 f4 : Bool) (f3 : String → Bool) :
    modifyNodeBelow ["Messages"] (fun _ => b) (vehicleShell env c f1 f2 f3 f4)
      = vehicleShell env c f1 b f3 f4 := by
  obtain ⟨ne1, ne2, ne3, ne4, ne5, ne6⟩ := string_ne_facts
  rcases hsid : c.system_id with _ | sid <;> rcases hcid : c.component_id with _ | cid <;>
    by_cases hd : c.data = [] <;> by_cases hp : c.parameters = [] <;>
      simp [modifyNodeBelow, vehicleShell, modify_single, hsid, hcid, hd, hp,
        ne1, ne2, ne3, modifyNodeTop, messagesShell]

/-- Setting the "Parameters" flag inside a built node yields the node built
with that flag. -/
theorem modifyBelow_params (env : ℤ → String) (c : Component) (b : Bool)
    (f1 f2 f4 : Bool) (f3 : String → Bool) :
    modifyNodeBelow ["Parameters"] (fun _ => b) (vehicleShell env c f1 f2 f3 f4)
      = vehicleShell env c f1 f2 f3 b := by
  obtain ⟨ne1, ne2, ne3, ne4, ne5, ne6⟩ := string_ne_facts
  rcases hsid : c.system_id with _ | sid <;> rcases hcid : c.component_id with _ | cid <;>
    by_cases hd : c.data = [] <;> by_cases hp : c.parameters = [] <;>
      simp [modifyNodeBelow, vehicleShell, modify_single, hsid, hcid, hd, hp,
        ne4, ne5, ne6, modifyNodeTop, paramsShell]

/-- Constructor form of `modifyNodeBelow`, for rewriting only where the node
is already a constructor application. -/
theorem modifyNodeBelow_mk (rest : List String) (f : Bool → Bool) (e : Bool)
    (cs : Option (List (String × TNode))) (v : Option PyVal) (u s : Option String) :
    modifyNodeBelow rest f (TNode.mk e cs v u s)
      = TNode.mk e (cs.map (fun cl => modifyExpandedAt cl rest f)) v u s := rfl

/-- Setting one message type's flag inside a built node yields the node built
with the overridden per-type flag function. -/
theorem modifyBelow_msg_type (env : ℤ → String) (c : Component) (b : Bool) (mt : String)
    (f1 f2 f4 : Bool) (f3 : String → Bool) :
    modifyNodeBelow ["Messages", mt] (fun _ => b) (vehicleShell env c f1 f2 f3 f4)
      = vehicleShell env c f1 f2 (fun x => if x = mt then b else f3 x) f4 := by
  obtain ⟨ne1, ne2, ne3, ne4, ne5, ne6⟩ := string_ne_facts
  have hmsg : modifyNodeBelow [mt] (fun _ => b) (messagesShell c f2 f3)
      = messagesShell c f2 (fun x => if x = mt then b else f3 x) := by
    show TNode.mk f2 (some (modifyExpandedAt (c.data.map (fun p =>
          (p.1, buildMsgNode (f3 p.1) (frequencyInfoFor c.message_stats p.1) p.2))) [mt]
          (fun _ => b)))
        Option.none Option.none Option.none
      = messagesShell c f2 (fun x => if x = mt then b else f3 x)
    rw [modify_single, List.map_map]
    unfold messagesShell
    congr 1
    congr 1
    apply List.map_congr_left
    intro q hq
    by_cases hqmt : q.1 = mt <;> simp [Function.comp, hqmt, buildMsgNode_modifyTop]
  rcases hsid : c.system_id with _ | sid <;> rcases hcid : c.component_id with _ | cid <;>
    by_cases hd : c.data = [] <;> by_cases hp : c.parameters = [] <;>
      simp [vehicleShell, modifyNodeBelow_mk, modify_cons_cons, hsid, hcid, hd, hp,
        ne1, ne2, ne3, hmsg]

/-- One modified endpoint rebuilds to itself whenever the modification turns a
built node into a built node. -/
theorem stable_of_mc (env : ℤ → String) (c : Component) (τ : TNode → TNode)
    (f1 f2 f4 g1 g2 g4 : Bool) (f3 g3 : String → Bool)
    (hmc : τ (vehicleShell env c f1 f2 f3 f4) = vehicleShell env c g1 g2 g3 g4) :
    buildVehicleNode (some (τ (vehicleShell env c f1 f2 f3 f4))) env c
      = τ (vehicleShell env c f1 f2 f3 f4) := by
  rw [hmc]
  exact buildVehicleNode_of_shell env c g1 g2 g4 g3

/-- The whole-tree fixpoint: modifying one endpoint's tracked flag and
rebuilding reproduces the modified tree, given endpoint keys are unique and
the endpoint-level modification is stable. -/
theorem buildData_fixpoint_at (prev : List (String × TNode)) (env : ℤ → String)
    (vehicles : List (String × Component))
    (hnd : (vehicles.map Prod.fst).Nodup)
    (vid : String) (c : Component) (hvc : (vid, c) ∈ vehicles)
    (rest : List String) (f : Bool → Bool)
    (hstable : buildVehicleNode
        (some (nodeMod rest f (buildVehicleNode (alookup vid prev) env c))) env c
      = nodeMod rest f (buildVehicleNode (alookup vid prev) env c)) :
    buildDataFromVehicles
        (modifyExpandedAt (buildDataFromVehicles prev env vehicles) (vid :: rest) f)
        env vehicles
      = modifyExpandedAt (buildDataFromVehicles prev env vehicles) (vid :: rest) f := by
  have hT : modifyExpandedAt (buildDataFromVehicles prev env vehicles) (vid :: rest) f
      = vehicles.map (fun p => (p.1,
          if p.1 = vid then nodeMod rest f (buildVehicleNode (alookup p.1 prev) env p.2)
          else buildVehicleNode (alookup p.1 prev) env p.2)) := by
    rw [modify_cons_general, buildDataFromVehicles, List.map_map]
    rfl
  rw [hT, buildDataFromVehicles]
  apply List.map_congr_left
  rintro ⟨v, cc⟩ hvcc
  have halk := alookup_map_keyed v vehicles (fun key node =>
    if key = vid then nodeMod rest f (buildVehicleNode (alookup key prev) env node)
    else buildVehicleNode (alookup key prev) env node)
  have hself : alookup v vehicles = some cc :=
    alookup_self_nodup v cc vehicles hvcc hnd
  rw [halk, hself]
  by_cases hv : v = vid
  · have hcc : cc = c := by
      have h2 : alookup vid vehicles = some c := alookup_self_nodup vid c vehicles hvc hnd
      rw [hv] at hself
      rw [hself] at h2
      exact (Option.some_inj.mp h2)
    subst hv
    subst hcc
    simp only [if_pos rfl, Option.map_some]
    exact congrArg (fun n => (v, n)) hstable
  · simp only [if_neg hv, Option.map_some]
    exact congrArg (fun n => (v, n)) (buildVehicleNode_idem (alookup v prev) env cc)

/-- Setting the endpoint-root flag commutes with a rebuild. -/
theorem stable_root (pv : Option TNode) (env : ℤ → String) (c : Component) (b : Bool) :
    buildVehicleNode (some (modifyNodeTop (fun _ => b) (buildVehicleNode pv env c))) env c
      = modifyNodeTop (fun _ => b) (buildVehicleNode pv env c) :=
  stable_of_mc env c (modifyNodeTop (fun _ => b)) _ _ _ _ _ _ _ _
    (modifyTop_shell env c b _ _ _ _)

/-- Setting the "Messages" flag commutes with a rebuild. -/
theorem stable_messages (pv : Option TNode) (env : ℤ → String) (c : Component) (b : Bool) :
    buildVehicleNode (some (modifyNodeBelow ["Messages"] (fun _ => b)
        (buildVehicleNode pv env c))) env c
      = modifyNodeBelow ["Messages"] (fun _ => b) (buildVehicleNode pv env c) :=
  stable_of_mc env c (modifyNodeBelow ["Messages"] (fun _ => b)) _ _ _ _ _ _ _ _
    (modifyBelow_messages env c b _ _ _ _)

/-- Setting one message type's flag commutes with a rebuild. -/
theorem stable_msg_type (pv : Option TNode) (env : ℤ → String) (c : Component) (b : Bool)
    (mt : String) :
    buildVehicleNode (some (modifyNodeBelow ["Messages", mt] (fun _ => b)
        (buildVehicleNode pv env c))) env c
      = modifyNodeBelow ["Messages", mt] (fun _ => b) (buildVehicleNode pv env c) :=
  stable_of_mc env c (modifyNodeBelow ["Messages", mt] (fun _ => b)) _ _ _ _ _ _ _ _
    (modifyBelow_msg_type env c b mt _ _ _ _)

/-- Setting the "Parameters" flag commutes with a rebuild. -/
theorem stable_params (pv : Option TNode) (env : ℤ → String) (c : Component) (b : Bool) :
    buildVehicleNode (some (modifyNodeBelow ["Parameters"] (fun _ => b)
        (buildVehicleNode pv env c))) env c
      = modifyNodeBelow ["Parameters"] (fun _ => b) (buildVehicleNode pv env c) :=
  stable_of_mc env c (modifyNodeBelow ["Parameters"] (fun _ => b)) _ _ _ _ _ _ _ _
    (modifyBelow_params env c b _ _ _ _)

/-- C5: expansion-state round-trip across rebuilds.  For every tracked path of
the current vehicles (an endpoint root, its "Messages" section, each
message-type node, its "Parameters" section), setting that path's expansion
flag on the built tree and rebuilding from the unchanged vehicle data is a
fixpoint — the rebuilt tree equals the modified tree — so the set flag is
preserved at exactly that path while every other path keeps its own prior
state; the modification itself maps only the target path's flag and leaves
every other path's flag unchanged; and a path whose lookup into the previous
generation misses takes its type-specific default: endpoint roots and the
"Messages" section default expanded, message-type nodes and the "Parameters"
section default collapsed. -/
theorem C5_expansion_round_trip (prev : List (String × TNode)) (env : ℤ → String)
    (vehicles : List (String × Component)) (hnd : (vehicles.map Prod.fst).Nodup)
    (path : List String) (hp : path ∈ trackedPaths vehicles) (b : Bool) :
    (buildDataFromVehicles
        (modifyExpandedAt (buildDataFromVehicles prev env vehicles) path (fun _ => b))
        env vehicles
      = modifyExpandedAt (buildDataFromVehicles prev env vehicles) path (fun _ => b))
    ∧ (expandedAt
        (modifyExpandedAt (buildDataFromVehicles prev env vehicles) path (fun _ => b)) path
      = (expandedAt (buildDataFromVehicles prev env vehicles) path).map (fun _ => b))
    ∧ (∀ p', p' ≠ path →
        expandedAt
          (modifyExpandedAt (buildDataFromVehicles prev env vehicles) path (fun _ => b)) p'
        = expandedAt (buildDataFromVehicles prev env vehicles) p')
    ∧ (∀ (pv : Option TNode) (c : Component),
        (pv = Option.none → (buildVehicleNode pv env c).expanded = true)
        ∧ (childOf pv "Messages" = Option.none → c.data ≠ [] →
            optExpanded (childOf (some (buildVehicleNode pv env c)) "Messages") true = true)
        ∧ (∀ q ∈ c.data, childOf (childOf pv "Messages") q.1 = Option.none →
            optExpanded (childOf (childOf (some (buildVehicleNode pv env c)) "Messages") q.1)
              false = false)
        ∧ (childOf pv "Parameters" = Option.none → c.parameters ≠ [] →
            optExpanded (childOf (some (buildVehicleNode pv env c)) "Parameters") false
              = false)) := by
  refine ⟨?_, expandedAt_modify_self path (fun _ => b) _,
    fun p' hne => expandedAt_modify_other path (fun _ => b) p' _ hne, ?_⟩
  · rcases List.mem_flatMap.mp hp with ⟨a, hva, hpath⟩
    have hvc : (a.1, a.2) ∈ vehicles := by rwa [Prod.mk.eta]
    rcases List.mem_append.mp hpath with h12 | h3
    · rcases List.mem_append.mp h12 with h1 | h2
      · have hpe : path = [a.1] := List.mem_singleton.mp h1
        subst hpe
        exact buildData_fixpoint_at prev env vehicles hnd a.1 a.2 hvc [] (fun _ => b)
          (stable_root (alookup a.1 prev) env a.2 b)
      · by_cases hd : a.2.data = []
        · rw [if_pos hd] at h2
          simp at h2
        · rw [if_neg hd] at h2
          rcases List.mem_append.mp h2 with h2a | h2b
          · have hpe : path = [a.1, "Messages"] := List.mem_singleton.mp h2a
            subst hpe
            exact buildData_fixpoint_at prev env vehicles hnd a.1 a.2 hvc ["Messages"]
              (fun _ => b) (stable_messages (alookup a.1 prev) env a.2 b)
          · rcases List.mem_map.mp h2b with ⟨q, hq, hpe⟩
            subst hpe
            exact buildData_fixpoint_at prev env vehicles hnd a.1 a.2 hvc ["Messages", q.1]
              (fun _ => b) (stable_msg_type (alookup a.1 prev) env a.2 b q.1)
    · by_cases hpb : a.2.parameters = []
      · rw [if_pos hpb] at h3
        simp at h3
      · rw [if_neg hpb] at h3
        have hpe : path = [a.1, "Parameters"] := List.mem_singleton.mp h3
        subst hpe
        exact buildData_fixpoint_at prev env vehicles hnd a.1 a.2 hvc ["Parameters"]
          (fun _ => b) (stable_params (alookup a.1 prev) env a.2 b)
  · intro pv c
    refine ⟨?_, ?_, ?_, ?_⟩
    · intro hpv
      subst hpv
      rfl
    · intro hm hd
      have hf2 : optExpanded (childOf pv "Messages") true = true := by
        rw [hm]
        rfl
      unfold buildVehicleNode
      rw [childOf_vehicleShell_messages, if_neg hd]
      exact hf2
    · intro q hq hnone
      have hd : c.data ≠ [] := by
        intro h
        rw [h] at hq
        simp at hq
      unfold buildVehicleNode
      rw [childOf_vehicleShell_messages, if_neg hd, childOf_messagesShell]
      rcases Option.isSome_iff_exists.mp
        (alookup_isSome_of_mem q.1 q.2 c.data (by simpa using hq)) with ⟨md, hmd⟩
      rw [hmd]
      show (buildMsgNode (optExpanded (childOf (childOf pv "Messages") q.1) false)
          (frequencyInfoFor c.message_stats q.1) md).expanded = false
      rw [buildMsgNode_expanded, hnone]
      rfl
    · intro hm hpa
      have hf4 : optExpanded (childOf pv "Parameters") false = false := by
        rw [hm]
        rfl
      unfold buildVehicleNode
      rw [childOf_vehicleShell_params, if_neg hpa]
      exact hf4

/-- Concrete round-trip instance: one endpoint carrying one message type and
one parameter; collapsing its "Messages" section and rebuilding reproduces the
collapsed tree. -/
theorem C5_expansion_round_trip_witness :
    buildDataFromVehicles
        (modifyExpandedAt (buildDataFromVehicles [] env0 c5WitnessVehicles)
          ["1:1", "Messages"] (fun _ => false)) env0 c5WitnessVehicles
      = modifyExpandedAt (buildDataFromVehicles [] env0 c5WitnessVehicles)
          ["1:1", "Messages"] (fun _ => false) :=
  (C5_expansion_round_trip [] env0 c5WitnessVehicles (by decide)
    ["1:1", "Messages"] (by decide) false).1

/-- C1 counterexample: at `t = 2` with recorded timestamps `[0, 2]`, the window
described by the claim ("removes all timestamps older than t - 2.0 seconds")
still holds both timestamps, spans `2 > 0`, and so the claim forces frequency
`(2 - 1) / 2 = 1/2`; the code's filter also drops the boundary timestamp `0`
(it keeps only `ts > t - 2`) and yields frequency `0`. -/
theorem C1_boundary_counterexample :
    specClaimWindow [0, 2] 2 = [0, 2] ∧
    (((specClaimWindow [0, 2] 2).length : ℚ) - 1) / (2 - (specClaimWindow [0, 2] 2).headI)
      = 1 / 2 ∧
    (recalculateFrequency boundaryEntry 2).frequency = 0 ∧
    (0 : ℚ) ≠ 1 / 2 := by
  refine ⟨?_, ?_, ?_, by norm_num⟩
  · norm_num [specClaimWindow]
  · norm_num [specClaimWindow, List.headI]
  · norm_num [recalculateFrequency, boundaryEntry]

/-- C1 (amended): a frequency recomputation at time `t` first restricts the
window to timestamps strictly newer than `t - 2` (equivalently, it drops every
timestamp aged at least 2.0 seconds, boundary included); on the surviving
window `w` the frequency is `(w.length - 1) / (t - w[0])` when `w.length >= 2`
and the span `t - w[0]` is positive, and `0` otherwise (fewer than two
survivors, or a non-positive span).  In particular the arrival sequence
0, 0.3, 0.6, 0.9 recomputed on arrival at `t = 0.9` yields `3 / 0.9` Hz. -/
theorem C1_amended_frequency_recomputation (e : StatEntry) (t : ℚ) :
    ((recalculateFrequency e t).recent_timestamps
        = e.recent_timestamps.filter (fun ts => decide (t - 2 < ts)) ∧
      (recalculateFrequency e t).frequency =
        (if 2 ≤ (e.recent_timestamps.filter (fun ts => decide (t - 2 < ts))).length ∧
            0 < t - (e.recent_timestamps.filter (fun ts => decide (t - 2 < ts))).headI then
          (((e.recent_timestamps.filter (fun ts => decide (t - 2 < ts))).length : ℚ) - 1)
            / (t - (e.recent_timestamps.filter (fun ts => decide (t - 2 < ts))).headI)
        else 0)) ∧
    (alookup "HEARTBEAT" (updateMessageStats (updateMessageStats (updateMessageStats
        (updateMessageStats [] "HEARTBEAT" 0) "HEARTBEAT" (3/10)) "HEARTBEAT" (6/10))
        "HEARTBEAT" (9/10))).map StatEntry.frequency = some (3 / (9/10)) :=
  ⟨⟨recalc_recent_eq e t, recalc_frequency_eq e t⟩,
    by norm_num [updateMessageStats, recalculateFrequency, alookup, dictSet]⟩

/-- C2: a periodic stats sweep at a time `t` at which every recorded timestamp
of an (endpoint, message type) pair is at least 2.0 seconds old zeroes that
pair's frequency, with no new message arrival; and, in general, any
recomputation that leaves fewer than two timestamps in the trailing window
yields frequency 0. -/
theorem C2_sweep_decays_frequency_to_zero
    (vehicles : List (String × Component)) (t : ℚ)
    (vid : String) (c : Component) (mt : String) (e : StatEntry)
    (hv : (vid, c) ∈ vehicles) (he : (mt, e) ∈ c.message_stats)
    (hold : ∀ ts ∈ e.recent_timestamps, ts ≤ t - 2) :
    (vid, cleanupComponentStats c t) ∈ cleanupAndUpdateStats vehicles t ∧
    (mt, recalculateFrequency e t) ∈ (cleanupComponentStats c t).message_stats ∧
    (recalculateFrequency e t).frequency = 0 ∧
    (∀ (e' : StatEntry) (t' : ℚ),
      (recalculateFrequency e' t').recent_timestamps.length < 2 →
      (recalculateFrequency e' t').frequency = 0) := by
  refine ⟨List.mem_map_of_mem _ hv, List.mem_map_of_mem _ he, ?_, ?_⟩
  · have hnil : e.recent_timestamps.filter (fun ts => decide (t - 2 < ts)) = [] := by
      rw [List.filter_eq_nil_iff]
      intro ts hts
      simpa using not_lt.mpr (hold ts hts)
    rw [recalc_frequency_eq, hnil]
    norm_num
  · intro e' t' hlen
    rw [recalc_recent_eq] at hlen
    rw [recalc_frequency_eq]
    rw [if_neg]
    intro hc
    omega

/-- C2 witness: the 0, 0.3, 0.6, 0.9 arrival sequence, swept 2.1 seconds after
the last arrival (at `t = 3`), decays to frequency 0 with no new arrival. -/
theorem C2_sweep_decays_frequency_to_zero_witness :
    (∀ ts ∈ sweepWitnessEntry.recent_timestamps, ts ≤ (3 : ℚ) - 2) ∧
    (recalculateFrequency sweepWitnessEntry 3).frequency = 0 :=
  ⟨by norm_num [sweepWitnessEntry],
    (C2_sweep_decays_frequency_to_zero [("1:1", sweepWitnessComponent)] 3 "1:1"
      sweepWitnessComponent "HEARTBEAT" sweepWitnessEntry (List.mem_singleton.mpr rfl)
      (List.mem_singleton.mpr rfl) (by norm_num [sweepWitnessEntry])).2.2.1⟩

set_option maxRecDepth 4000 in
/-- C3 (evaluation of the code at the failing input): with 101 distinct status
messages on one endpoint, after two collection passes the view holds 100
entries whose first entry stems from second 2 while the oldest message
(second 0) sits at the very end.  Pass 1 appends all 101 entries and evicts
the oldest; pass 2 re-appends that evicted entry at the tail (the dedup check
consults only the trimmed view list while the bus-side source list is never
trimmed) and then evicts the second-oldest entry instead.  The view is
therefore no longer ordered oldest-to-newest, contradicting the claim that
evicted entries do not disturb the ordering on later passes. -/
theorem C3_evicted_entry_reappended :
    (collectStatusMessages (collectStatusMessages [] statusBugVehicles)
        statusBugVehicles).length = 100 ∧
    (collectStatusMessages (collectStatusMessages [] statusBugVehicles)
        statusBugVehicles).head? = some (2, "1:1", PyVal.str "x") ∧
    (collectStatusMessages (collectStatusMessages [] statusBugVehicles)
        statusBugVehicles).getLast? = some (0, "1:1", PyVal.str "x") := by decide

/-- C4 counterexample: two STATUSTEXT records that differ only in severity, and
two records that differ only in their sub-second timestamp, have distinct full
`(timestamp, endpointId, text, severity)` tuples — so the claim says both of
each pair are retained — yet each pair collapses to a single view entry,
because the code's dedup tuple `(formatted second, endpoint id, text)`
contains neither the severity nor the sub-second part. -/
theorem C4_dedup_tuple_counterexample :
    specClaimStatusTuple "1:1" sevMsgA ≠ specClaimStatusTuple "1:1" sevMsgB ∧
    (collectStatusMessages [] [("1:1", { status_messages := [sevMsgA, sevMsgB] })]).length = 1 ∧
    specClaimStatusTuple "1:1" sevMsgA ≠ specClaimStatusTuple "1:1" subSecMsgC ∧
    (collectStatusMessages [] [("1:1", { status_messages := [sevMsgA, subSecMsgC] })]).length
      = 1 := by
  refine ⟨by decide, by decide, ?_, ?_⟩
  · intro h
    have := congrArg (fun p => p.1) h
    simp only [specClaimStatusTuple, sevMsgA, subSecMsgC] at this
    norm_num at this
  · have hkeyA : formatTimeHMS sevMsgA.timestamp = 10 := by
      norm_num [formatTimeHMS, sevMsgA]
    have hkeyC : formatTimeHMS subSecMsgC.timestamp = 10 := by
      norm_num [formatTimeHMS, subSecMsgC]
    have htext : subSecMsgC.text = sevMsgA.text := rfl
    simp [collectStatusMessages, collectVehicleStatus, appendStatusTuple, statusTuple,
      maxStatusMessages, hkeyA, hkeyC, htext]

/-- C4 (amended): before appending, a status entry is deduplicated by exact
equality of the triple (second-resolution formatted timestamp, endpointId,
text): it is appended if and only if no entry with exactly that triple is
already present; the severity and the sub-second part of the timestamp are not
part of the key, so changing only them changes nothing. -/
theorem C4_amended_dedup_key (sm : List (ℤ × String × PyVal)) (vid : String) (m : StatusMsg) :
    (statusTuple vid m ∈ sm → appendStatusTuple sm vid m = sm) ∧
    (statusTuple vid m ∉ sm → appendStatusTuple sm vid m = sm ++ [statusTuple vid m]) ∧
    (∀ sev : PyVal, appendStatusTuple sm vid { m with severity := sev }
        = appendStatusTuple sm vid m) ∧
    (∀ ts : ℚ, formatTimeHMS ts = formatTimeHMS m.timestamp →
      appendStatusTuple sm vid { m with timestamp := ts } = appendStatusTuple sm vid m) := by
  refine ⟨fun h => ?_, fun h => ?_, fun sev => rfl, fun ts hts => ?_⟩
  · simp [appendStatusTuple, h]
  · simp [appendStatusTuple, h]
  · simp [appendStatusTuple, statusTuple, hts]

/-- C4 witness: appending to an empty view list appends the dedup triple. -/
theorem C4_amended_dedup_key_witness :
    appendStatusTuple [] "1:1" sevMsgA = [] ++ [statusTuple "1:1" sevMsgA] :=
  (C4_amended_dedup_key [] "1:1" sevMsgA).2.1 (by decide)

/-- C8: a `None` message (timed-out poll) and a BAD_DATA frame are silent
no-ops for `parse_msg`: no endpoint is created, no status entry, message
record, parameter or frequency statistic is touched — the whole aggregate
state is returned unchanged. -/
theorem C8_bad_data_is_silent_noop (vehicles : List (String × Component)) (t : ℚ)
    (details : Bool) :
    parseMsg vehicles Option.none t details = vehicles ∧
    (∀ m : MavMsg, m.msgType = "BAD_DATA" → parseMsg vehicles (some m) t details = vehicles) := by
  refine ⟨rfl, fun m hm => ?_⟩
  simp [parseMsg, hm]

/-- C8 witness: a concrete BAD_DATA frame leaves a concrete state unchanged. -/
theorem C8_bad_data_is_silent_noop_witness :
    parseMsg [] (some badDataMsg) 0 false = [] :=
  (C8_bad_data_is_silent_noop [] 0 false).2 badDataMsg rfl

end MavInspector
